import Mathlib

/-!
Verification of the Spark Plug falling-block engine and task-priority scoring
function (src/app/page.tsx) against its natural-language specification.

The TypeScript source is shallowly embedded: boards are lists of rows of
`Nat` cells (0 = unoccupied, nonzero = occupied, matching JS truthiness),
JS numbers used as coordinates become `Int`, JS numbers used as counts become
`Nat`, and the real-valued task scores become `ℚ`.  Fallible JS operations
(indexing a rotation list out of range, which raises a `TypeError` at the
subsequent property access) are embedded as `Option`-valued functions where
`none` marks the fault.  Randomness (`Math.random()` draws) is embedded as
explicit function parameters supplying each draw's outcome.
-/

namespace SparkPlug

/-! ## Task scoring (`taskScore` in page.tsx) -/

/-- A task's five bounded numeric attributes (the other `Task` fields of the
source — id, title, tags, done, createdAt — do not enter `taskScore`). -/
structure Task where
  impact : ℚ
  urgency : ℚ
  energyFit : ℚ
  complexity : ℚ
  effort : ℚ

/-- The four user-adjustable weights. -/
structure Weights where
  impact : ℚ
  urgency : ℚ
  energyFit : ℚ
  complexity : ℚ

/-- `clamp01(x) = Math.max(0, Math.min(1, x))`. -/
def clamp01 (x : ℚ) : ℚ := max 0 (min 1 x)

/-- `taskScore` from page.tsx: normalize the first four attributes by 5 with
clamping, compute the effort penalty `clamp01((effort-1)/7) * 0.1`, and floor
the weighted combination at 0. -/
def taskScore (t : Task) (w : Weights) : ℚ :=
  max 0 (w.impact * clamp01 (t.impact / 5) + w.urgency * clamp01 (t.urgency / 5)
    + w.energyFit * clamp01 (t.energyFit / 5) - w.complexity * clamp01 (t.complexity / 5)
    - clamp01 ((t.effort - 1) / 7) * (1 / 10))

/-! ## Board engine -/

/-- `createBoard(h, w)`: an h-by-w grid of unoccupied cells. -/
def createBoard (h w : Nat) : List (List Nat) :=
  List.replicate h (List.replicate w 0)

/-- `canPlace(board, shape, x, y)` from page.tsx: every occupied shape cell,
offset by `(x, y)`, must land inside the board and on an unoccupied cell.
The loop bounds mirror the source: rows range over `shape.length`, columns
over `shape[0].length`, and the horizontal bound is `board[0].length`. -/
def canPlace (board shape : List (List Nat)) (x y : Int) : Bool :=
  (List.range shape.length).all fun r =>
    (List.range (shape.headD []).length).all fun c =>
      if (shape.getD r []).getD c 0 ≠ 0 then
        !(decide (y + (r : Int) < 0) || decide ((board.length : Int) ≤ y + (r : Int))
          || decide (x + (c : Int) < 0) || decide (((board.headD []).length : Int) ≤ x + (c : Int))
          || ((board.getD (y + (r : Int)).toNat []).getD (x + (c : Int)).toNat 0 != 0))
      else true

/-- JS row assignment `row[i] = v`: a non-negative index inside the row
overwrites the cell; a non-negative index past the end grows the row (the
holes read back as `undefined`, i.e. unoccupied, embedded as 0s); a
negative index stores a non-index property that no later read of the
engine observes (they all either bounds-check a non-negative index first
or iterate the elements), embedded as a no-op. -/
def jsSetNat (row : List Nat) (i : Int) (v : Nat) : List Nat :=
  if i < 0 then row
  else if i.toNat < row.length then row.set i.toNat v
  else row ++ List.replicate (i.toNat - row.length) 0 ++ [v]

/-- One JS cell assignment `b[y][x] = 1` as used by `merge`: for a row
index outside `[0, b.length)`, `b[y]` is `undefined` and the assignment
throws a `TypeError`, embedded as `none`; otherwise the row is updated per
`jsSetNat`. -/
def setCell (b : List (List Nat)) (y x : Int) : Option (List (List Nat)) :=
  if 0 ≤ y ∧ y < (b.length : Int) then
    some (b.set y.toNat (jsSetNat (b.getD y.toNat []) x 1))
  else none

/-- `merge(board, shape, x, y)`: mark every occupied shape cell at offset
`(x, y)` as occupied, without mutating the input; `none` embeds the
`TypeError` thrown when an occupied cell's row index leaves the board. -/
def merge (board shape : List (List Nat)) (x y : Int) : Option (List (List Nat)) :=
  (List.range shape.length).foldl (fun ob r =>
    (List.range (shape.headD []).length).foldl (fun ob c =>
      if (shape.getD r []).getD c 0 ≠ 0 then
        ob.bind fun b => setCell b (y + (r : Int)) (x + (c : Int))
      else ob) ob)
    (some board)

/-- Position side condition of a shape anchored at row `y`: every occupied
cell lies on a row inside the board.  This is exactly the condition under
which the source's `merge` does not throw, and the well-formedness lemmas
below show it holds in every state the program can reach. -/
def rowsInBoard (board shape : List (List Nat)) (y : Int) : Bool :=
  (List.range shape.length).all fun r =>
    (List.range (shape.headD []).length).all fun c =>
      if (shape.getD r []).getD c 0 ≠ 0 then
        decide (0 ≤ y + (r : Int)) && decide (y + (r : Int) < (board.length : Int))
      else true

/-- Full position side condition: every occupied cell of the shape anchored
at `(x, y)` lies inside the board, rows and columns alike.  On a
rectangular board this makes `merge` a plain in-bounds write (no throw, no
row growth, no holes), so the embedding coincides with the source cell for
cell; the well-formedness lemmas below show the condition holds in every
reachable state. -/
def cellsInBoard (board shape : List (List Nat)) (x y : Int) : Bool :=
  (List.range shape.length).all fun r =>
    (List.range (shape.headD []).length).all fun c =>
      if (shape.getD r []).getD c 0 ≠ 0 then
        decide (0 ≤ y + (r : Int)) && decide (y + (r : Int) < (board.length : Int)) &&
        decide (0 ≤ x + (c : Int)) && decide (x + (c : Int) < ((board.headD []).length : Int))
      else true

/-- `clearLines(board)`: keep the rows that still have an unoccupied cell,
count the removed rows, and prepend that many empty rows of the input's
leading width. -/
def clearLines (board : List (List Nat)) : List (List Nat) × Nat :=
  let kept := board.filter fun row => row.any fun v => v == 0
  let cleared := board.length - kept.length
  (List.replicate cleared (List.replicate (board.headD []).length 0) ++ kept, cleared)

/-- JS array assignment `arr[i] = 0` as used by `generateGarbage`'s forced
gap: assigning at an index equal to the length grows the array (assigning
beyond it creates holes that read back as unoccupied, embedded as 0s). -/
def jsSetZero (l : List Nat) (i : Nat) : List Nat :=
  if i < l.length then l.set i 0
  else l ++ List.replicate (i - l.length) 0 ++ [0]

/-- One garbage row before the forced-gap fix: cell `x` is 0 at the gap
column, else 1 with ~90% probability (`fill x = true` embeds the draw
`Math.random() < 0.9`). -/
def garbageRow (w : Nat) (gap : Nat) (fill : Nat → Bool) : List Nat :=
  (List.range w).map fun x => if x = gap then 0 else if fill x then 1 else 0

/-- One finished garbage row: the filled row, with the forced clearing of
cell `force` when the row came out fully occupied
(`if (b[y].every(v=>v===1)) b[y][...] = 0`). -/
def garbageFinalRow (w gap : Nat) (fill : Nat → Bool) (force : Nat) : List Nat :=
  let row := garbageRow w gap fill
  if row.all (fun v => v == 1) then jsSetZero row force else row

/-- `generateGarbage(h, w, rows)`: start from an empty h-by-w board and
rewrite row `h-1-i` for each `i < rows`.  `gapF i` embeds the draw
`Math.floor(Math.random()*w)` for row i's gap, `fillF i x` the per-cell
draw, and `forceF i` the draw used when the finished row is fully occupied
and one cell is forcibly cleared. -/
def generateGarbage (h w rows : Nat) (gapF : Nat → Nat) (fillF : Nat → Nat → Bool)
    (forceF : Nat → Nat) : List (List Nat) :=
  (List.range rows).foldl (fun b i =>
    b.set (h - 1 - i) (garbageFinalRow w (gapF i) (fillF i) (forceF i))) (createBoard h w)

/-! ## Piece geometry -/

/-- The seven piece kinds. -/
inductive Shape where
  | I | O | T | S | Z | J | L
deriving DecidableEq, Repr

/-- `SHAPES` from page.tsx, in source order. -/
def SHAPES : List Shape := [.I, .O, .T, .S, .Z, .J, .L]

/-- `PIECE_MAP`: each kind's ordered list of rotation-state occupancy
matrices, exactly as in page.tsx. -/
def PIECE_MAP : Shape → List (List (List Nat))
  | .I => [[[1, 1, 1, 1]], [[1], [1], [1], [1]]]
  | .O => [[[1, 1], [1, 1]]]
  | .T => [[[1, 1, 1], [0, 1, 0]], [[1, 0], [1, 1], [1, 0]],
           [[0, 1, 0], [1, 1, 1]], [[0, 1], [1, 1], [0, 1]]]
  | .S => [[[0, 1, 1], [1, 1, 0]], [[1, 0], [1, 1], [0, 1]]]
  | .Z => [[[1, 1, 0], [0, 1, 1]], [[0, 1], [1, 1], [1, 0]]]
  | .J => [[[1, 0, 0], [1, 1, 1]], [[1, 1], [1, 0], [1, 0]],
           [[1, 1, 1], [0, 0, 1]], [[0, 1], [0, 1], [1, 1]]]
  | .L => [[[0, 0, 1], [1, 1, 1]], [[1, 0], [1, 0], [1, 1]],
           [[1, 1, 1], [1, 0, 0]], [[1, 1], [0, 1], [0, 1]]]

/-- An active falling piece: kind, top-left anchor column `x`, anchor row
`y`, rotation index `r`. -/
structure Piece where
  shape : Shape
  x : Int
  y : Int
  r : Nat
deriving DecidableEq, Repr

/-- The minigame state: board, optional active piece, terminal flag, score. -/
structure GameState where
  board : List (List Nat)
  piece : Option Piece
  over : Bool
  score : Nat
deriving DecidableEq, Repr

/-! ## Spawner -/

/-- Result of `spawnFromInventory`: the optional new piece, the consumed
kind (the source's `consumed` field, absent on failure), and the inventory
the source hands to `setInv` (unchanged when nothing spawned, since `setInv`
is only called on success). -/
structure SpawnResult where
  piece : Option Piece
  consumed : Option Shape
  inv : Shape → Nat

/-- `spawnFromInventory(inv, setInv)` from page.tsx.  `idx` embeds the draw
`Math.floor(Math.random()*available.length)`, which the source guarantees to
be `< available.length`; out-of-range values fall back to kind I via `getD`
(unreachable under that guarantee).  The chosen kind's count is decremented
(`Math.max(0, count-1)` is `Nat` subtraction) and the piece starts at its
0th rotation, row 0, column `⌊(10 - matrixWidth)/2⌋`. -/
def spawnFromInventory (inv : Shape → Nat) (idx : Nat) : SpawnResult :=
  let available := SHAPES.filter fun s => decide (0 < inv s)
  if available.isEmpty then ⟨none, none, inv⟩
  else
    let shape := available.getD idx .I
    let next := Function.update inv shape (inv shape - 1)
    let matrix := (PIECE_MAP shape).getD 0 []
    let x : Int := ((10 - (matrix.headD []).length) / 2 : Nat)
    ⟨some ⟨shape, x, 0, 0⟩, some shape, next⟩

/-! ## Game loop operations

`step`, `move` and `hardDrop` read `PIECE_MAP[shape][r]` with the raw
rotation index; in JS an out-of-range index yields `undefined` and the
subsequent `.length` access throws.  That fault is embedded as `none`. -/

/-- One gravity tick (`step` in page.tsx). -/
def step (s : GameState) : Option GameState :=
  if s.over then some s
  else
    match s.piece with
    | none => some s
    | some p =>
      match (PIECE_MAP p.shape)[p.r]? with
      | none => none
      | some shape =>
        if canPlace s.board shape p.x (p.y + 1) then
          some { s with piece := some { p with y := p.y + 1 } }
        else
          match merge s.board shape p.x p.y with
          | none => none
          | some merged =>
            let cl := clearLines merged
            some { s with board := cl.1, piece := none, score := s.score + cl.2 * 100 }

/-- Horizontal move (`move(dx)` in page.tsx). -/
def move (dx : Int) (s : GameState) : Option GameState :=
  match s.piece with
  | none => some s
  | some p =>
    match (PIECE_MAP p.shape)[p.r]? with
    | none => none
    | some shape =>
      if canPlace s.board shape (p.x + dx) p.y then
        some { s with piece := some { p with x := p.x + dx } }
      else some s

/-- Rotation (`rotate` in page.tsx).  The next index is taken modulo the
kind's rotation-list length, so the lookup at `nr` is always in range
(every `PIECE_MAP` list is nonempty) and `rotate` is total. -/
def rotate (s : GameState) : GameState :=
  match s.piece with
  | none => s
  | some p =>
    let nr := (p.r + 1) % (PIECE_MAP p.shape).length
    let shape := (PIECE_MAP p.shape).getD nr []
    if canPlace s.board shape p.x p.y then { s with piece := some { p with r := nr } }
    else s

/-- The `while (canPlace(..., y+1)) y++` loop of `hardDrop`, embedded with
fuel.  For every shape with at least one occupied cell the JS loop makes at
most `board.length + 4` successful steps (a success needs
`y + 1 + r < board.length` with `r < 4`), so the fuel passed by `hardDrop`
never runs out on the shapes of `PIECE_MAP`. -/
def dropY (board shape : List (List Nat)) (x : Int) (y : Int) : Nat → Int
  | 0 => y
  | fuel + 1 =>
    if canPlace board shape x (y + 1) then dropY board shape x (y + 1) fuel else y

/-- The first `setState` of `hardDrop`: advance the piece to its landing
row. -/
def dropToBottom (s : GameState) : Option GameState :=
  match s.piece with
  | none => some s
  | some p =>
    match (PIECE_MAP p.shape)[p.r]? with
    | none => none
    | some shape =>
      some { s with piece := some { p with y := dropY s.board shape p.x p.y (s.board.length + 5) } }

/-- `hardDrop` in page.tsx: drop to the landing row, then invoke `step`
(the source calls `step()` right after its `setState`). -/
def hardDrop (s : GameState) : Option GameState :=
  (dropToBottom s).bind step

/-- The active-piece cells painted by `draw` in page.tsx.  `draw` first
computes `state.board[0].length`, which throws on an empty board; its
board-cell pass then cannot fault, and the piece pass reads
`PIECE_MAP[shape][r]` with the raw rotation index, throwing when it is out
of range.  Both faults are embedded as `none`. -/
def drawPiece (s : GameState) : Option (List (Int × Int)) :=
  if s.board.isEmpty then none
  else
    match s.piece with
    | none => some []
    | some p =>
      match (PIECE_MAP p.shape)[p.r]? with
      | none => none
      | some shape =>
        some ((List.range shape.length).foldl (fun acc r =>
          acc ++ ((List.range (shape.headD []).length).filterMap fun c =>
            if (shape.getD r []).getD c 0 ≠ 0 then some (p.x + (c : Int), p.y + (r : Int))
            else none)) [])

/-! ## The reward-play loop state (`TetrisPlay` component) -/

/-- The component state surrounding the game: the game state, the piece
inventory, the `running` flag of the animation loop, and the last consumed
kind. -/
structure LoopState where
  game : GameState
  inv : Shape → Nat
  running : Bool
  lastConsumed : Option Shape

/-- `ensurePiece` from page.tsx: when no piece is active, try to spawn; on
success install the piece (the spawner already updated the inventory via
`setInv`) and record the consumed kind; on failure stop the loop
(`setRunning(false)`). -/
def ensurePiece (ls : LoopState) (idx : Nat) : LoopState :=
  match ls.game.piece with
  | some _ => ls
  | none =>
    let res := spawnFromInventory ls.inv idx
    match res.piece with
    | some p =>
      { ls with game := { ls.game with piece := some p }, inv := res.inv,
                lastConsumed := res.consumed }
    | none => { ls with running := false }

/-- `reset` in page.tsx: a fresh game over garbage rows
(`Math.max(0, Math.min(10, prefill))` rows of pre-fill), no piece, flag
clear, score 0. -/
def reset (prefill : Nat) (gapF : Nat → Nat) (fillF : Nat → Nat → Bool)
    (forceF : Nat → Nat) : GameState :=
  { board := generateGarbage 20 10 (min 10 prefill) gapF fillF forceF,
    piece := none, over := false, score := 0 }

/-- Well-formedness of a game state per the spec's data model: the terminal
flag is unset (nothing in the source ever sets it) and an active piece's
rotation index lies inside its kind's rotation list (spawns start at index
0 and `rotate` reduces modulo the list length). -/
def WFState (s : GameState) : Prop :=
  s.over = false ∧ ∀ p, s.piece = some p → p.r < (PIECE_MAP p.shape).length

/-- Positional well-formedness: an active piece's occupied cells all lie on
rows inside the board, so the source's `merge` cannot throw on it.  Pieces
spawn at row 0 of a 20-row board with matrices at most 2 rows tall, and
every later position is validated by `canPlace`, which checks exactly
these bounds; the invariance lemmas below make that precise. -/
def WFPos (s : GameState) : Prop :=
  ∀ p, s.piece = some p → rowsInBoard s.board ((PIECE_MAP p.shape).getD p.r []) p.y = true

/-- Full positional well-formedness: an active piece's occupied cells all
lie inside the board, rows and columns alike. -/
def WFCells (s : GameState) : Prop :=
  ∀ p, s.piece = some p →
    cellsInBoard s.board ((PIECE_MAP p.shape).getD p.r []) p.x p.y = true

/-! ## Concrete fixtures used by the scenarios and witnesses -/

/-- The inventory `{I:1, others:0}` of the spec's spawn scenario. -/
def invI : Shape → Nat := fun s => if s = Shape.I then 1 else 0

/-- The all-zero (exhausted) inventory. -/
def invEmpty : Shape → Nat := fun _ => 0

/-- The 4-row scenario board for `clearLines`: rows 0 and 1 full, row 2
occupied in 3 of 4 columns, row 3 empty. -/
def clearBoard4 : List (List Nat) := [[1, 1, 1, 1], [1, 1, 1, 1], [0, 1, 1, 1], [0, 0, 0, 0]]

/-- The 2-by-2 square shape of the `canPlace` scenario. -/
def square2 : List (List Nat) := [[1, 1], [1, 1]]

/-- An O piece centered near the top-left of an empty board. -/
def pieceO : Piece := { shape := Shape.O, x := 1, y := 0, r := 0 }

/-- An O piece flush against the left wall. -/
def pieceOLeft : Piece := { shape := Shape.O, x := 0, y := 0, r := 0 }

/-- A falling O piece on an empty 4-by-4 board. -/
def gameO : GameState := { board := createBoard 4 4, piece := some pieceO, over := false, score := 0 }

/-- The same board with the O piece against the left wall. -/
def gameOLeft : GameState :=
  { board := createBoard 4 4, piece := some pieceOLeft, over := false, score := 0 }

/-- A state whose O piece carries the out-of-range rotation index 1
(`PIECE_MAP.O` has a single rotation state). -/
def gameOBadRot : GameState :=
  { board := createBoard 4 4, piece := some { shape := Shape.O, x := 0, y := 0, r := 1 },
    over := false, score := 0 }

/-- An idle state: no active piece. -/
def gameIdle : GameState := { board := createBoard 4 4, piece := none, over := false, score := 0 }

/-- The starved loop state: no active piece, exhausted inventory, loop
running. -/
def starvedLoop : LoopState :=
  { game := { board := createBoard 20 10, piece := none, over := false, score := 0 },
    inv := invEmpty, running := true, lastConsumed := none }

/-- A deterministic stand-in for the random draws that always yields 0. -/
def zeroDraw : Nat → Nat := fun _ => 0

/-- A deterministic stand-in for the per-cell fill draws that always fills. -/
def fullFill : Nat → Nat → Bool := fun _ _ => true

/-! ## Shared helper lemmas -/

/-- Every piece kind appears in `SHAPES`. -/
theorem mem_SHAPES (s : Shape) : s ∈ SHAPES := by
  cases s <;> simp [SHAPES]

/-- Every kind's rotation list is nonempty. -/
theorem PIECE_MAP_length_pos (k : Shape) : 0 < (PIECE_MAP k).length := by
  cases k <;> simp [PIECE_MAP]

/-- A guarded `Bool` is true exactly when the guard implies it. -/
theorem ite_guard_eq_true {p : Prop} [Decidable p] {x : Bool} :
    (if p then x else true) = true ↔ (p → x = true) := by
  by_cases h : p <;> simp [h]

/-- In-range indexing agrees with `getD`. -/
theorem getElem?_eq_some_getD {α : Type} (l : List α) (i : Nat) (d : α) (h : i < l.length) :
    l[i]? = some (l.getD i d) := by
  rw [List.getElem?_eq_getElem h, List.getD_eq_getElem?_getD, List.getElem?_eq_getElem h]
  rfl

/-- `step` leaves a piece-less state untouched. -/
theorem step_of_none (s : GameState) (hp : s.piece = none) : step s = some s := by
  cases hov : s.over <;> simp [step, hov, hp]

/-- `move` leaves a piece-less state untouched. -/
theorem move_of_none (dx : Int) (s : GameState) (hp : s.piece = none) : move dx s = some s := by
  simp [move, hp]

/-- `rotate` leaves a piece-less state untouched. -/
theorem rotate_of_none (s : GameState) (hp : s.piece = none) : rotate s = s := by
  simp [rotate, hp]

/-- `dropToBottom` leaves a piece-less state untouched. -/
theorem dropToBottom_of_none (s : GameState) (hp : s.piece = none) : dropToBottom s = some s := by
  simp [dropToBottom, hp]

/-- `hardDrop` leaves a piece-less state untouched. -/
theorem hardDrop_of_none (s : GameState) (hp : s.piece = none) : hardDrop s = some s := by
  rw [hardDrop, dropToBottom_of_none s hp, Option.some_bind, step_of_none s hp]

/-! ## C2: the task score -/

/-- C2: for every task and weight vector, `taskScore` equals the clamped,
weighted combination `w.impact*norm(impact) + w.urgency*norm(urgency) +
w.energyFit*norm(energyFit) - w.complexity*norm(complexity) -
clamp01((effort-1)/7)*0.1` floored at 0, hence is never negative; each
normalization divides by the maximum 5 and `clamp01` keeps it in `[0, 1]`,
and the effort penalty contributes at most 0.1. -/
theorem taskScore_formula (t : Task) (w : Weights) :
    taskScore t w = max 0 (w.impact * clamp01 (t.impact / 5) + w.urgency * clamp01 (t.urgency / 5)
        + w.energyFit * clamp01 (t.energyFit / 5) - w.complexity * clamp01 (t.complexity / 5)
        - clamp01 ((t.effort - 1) / 7) * (1 / 10)) ∧
      0 ≤ taskScore t w ∧
      (∀ a : ℚ, 0 ≤ clamp01 a ∧ clamp01 a ≤ 1) ∧
      clamp01 ((t.effort - 1) / 7) * (1 / 10) ≤ 1 / 10 := by
  refine ⟨rfl, le_max_left _ _, fun a => ⟨le_max_left _ _, ?_⟩, ?_⟩
  · exact max_le (by norm_num) (min_le_left _ _)
  · have h1 : clamp01 ((t.effort - 1) / 7) ≤ 1 :=
      max_le (by norm_num) (min_le_left _ _)
    nlinarith [h1]

/-! ## C10: operations on an idle state are no-ops -/

/-- C10: when no piece is active, `step`, `move`, `rotate` and `hardDrop`
all return the state unchanged, without faulting. -/
theorem idle_ops_noop (s : GameState) (dx : Int) (hp : s.piece = none) :
    step s = some s ∧ move dx s = some s ∧ rotate s = s ∧ hardDrop s = some s :=
  ⟨step_of_none s hp, move_of_none dx s hp, rotate_of_none s hp, hardDrop_of_none s hp⟩

/-- C10 witness: the concrete idle state is left untouched by all four
operations. -/
theorem idle_ops_noop_witness :
    step gameIdle = some gameIdle ∧ move (-1) gameIdle = some gameIdle ∧
      rotate gameIdle = gameIdle ∧ hardDrop gameIdle = some gameIdle :=
  idle_ops_noop gameIdle (-1) rfl

/-- Unfolding of `step` on a non-terminal state with an active piece whose
rotation lookup succeeds. -/
theorem step_eq_of (s : GameState) (p : Piece) (shape : List (List Nat))
    (hov : s.over = false) (hp : s.piece = some p)
    (hsh : (PIECE_MAP p.shape)[p.r]? = some shape) :
    step s = if canPlace s.board shape p.x (p.y + 1) then
        some { s with piece := some { p with y := p.y + 1 } }
      else
        (merge s.board shape p.x p.y).map fun merged =>
          { s with board := (clearLines merged).1, piece := none,
                   score := s.score + (clearLines merged).2 * 100 } := by
  obtain ⟨b, pc, ov, sc⟩ := s
  simp only at hp hov
  subst hp hov
  simp only [step, hsh, Bool.false_eq_true, if_false]
  split
  · rfl
  · cases merge b shape p.x p.y <;> rfl

/-- Unfolding of `move` on a state with an active piece whose rotation
lookup succeeds. -/
theorem move_eq_of (dx : Int) (s : GameState) (p : Piece) (shape : List (List Nat))
    (hp : s.piece = some p) (hsh : (PIECE_MAP p.shape)[p.r]? = some shape) :
    move dx s = if canPlace s.board shape (p.x + dx) p.y then
        some { s with piece := some { p with x := p.x + dx } }
      else some s := by
  obtain ⟨b, pc, ov, sc⟩ := s
  simp only at hp
  subst hp
  simp [move, hsh]

/-- Unfolding of `rotate` on a state with an active piece. -/
theorem rotate_eq_of (s : GameState) (p : Piece) (hp : s.piece = some p) :
    rotate s = if canPlace s.board
        ((PIECE_MAP p.shape).getD ((p.r + 1) % (PIECE_MAP p.shape).length) []) p.x p.y then
        { s with piece := some { p with r := (p.r + 1) % (PIECE_MAP p.shape).length } }
      else s := by
  obtain ⟨b, pc, ov, sc⟩ := s
  simp only at hp
  subst hp
  rfl

/-- Unfolding of `dropToBottom` on a state with an active piece whose
rotation lookup succeeds. -/
theorem dropToBottom_eq_of (s : GameState) (p : Piece) (shape : List (List Nat))
    (hp : s.piece = some p) (hsh : (PIECE_MAP p.shape)[p.r]? = some shape) :
    dropToBottom s =
      some { s with piece := some { p with y := dropY s.board shape p.x p.y (s.board.length + 5) } } := by
  obtain ⟨b, pc, ov, sc⟩ := s
  simp only at hp
  subst hp
  simp [dropToBottom, hsh]

/-- Propositional reading of `rowsInBoard`. -/
theorem rowsInBoard_iff (board shape : List (List Nat)) (y : Int) :
    rowsInBoard board shape y = true ↔
      ∀ r c : Nat, r < shape.length → c < (shape.headD []).length →
        (shape.getD r []).getD c 0 ≠ 0 →
        0 ≤ y + (r : Int) ∧ y + (r : Int) < (board.length : Int) := by
  simp only [rowsInBoard, List.all_eq_true, List.mem_range, ite_guard_eq_true,
    Bool.and_eq_true, decide_eq_true_eq]
  constructor
  · intro h r c hr hc hocc
    exact h r hr c hc hocc
  · intro h r hr c hc hocc
    exact h r c hr hc hocc

/-- A placement accepted by `canPlace` has all its occupied rows inside the
board (this is the row-bounds part of the check, which needs no
rectangularity assumption). -/
theorem canPlace_rows (board shape : List (List Nat)) (x y : Int)
    (h : canPlace board shape x y = true) : rowsInBoard board shape y = true := by
  rw [rowsInBoard_iff]
  intro r c hr hc hocc
  simp only [canPlace, List.all_eq_true, List.mem_range] at h
  have h2 := ite_guard_eq_true.mp (h r hr c hc) hocc
  simp only [Bool.not_eq_true', Bool.or_eq_false_iff, decide_eq_false_iff_not] at h2
  obtain ⟨⟨⟨⟨h1, h2'⟩, _⟩, _⟩, _⟩ := h2
  omega

/-- Propositional reading of `cellsInBoard`. -/
theorem cellsInBoard_iff (board shape : List (List Nat)) (x y : Int) :
    cellsInBoard board shape x y = true ↔
      ∀ r c : Nat, r < shape.length → c < (shape.headD []).length →
        (shape.getD r []).getD c 0 ≠ 0 →
        (0 ≤ y + (r : Int) ∧ y + (r : Int) < (board.length : Int)) ∧
          0 ≤ x + (c : Int) ∧ x + (c : Int) < ((board.headD []).length : Int) := by
  simp only [cellsInBoard, List.all_eq_true, List.mem_range, ite_guard_eq_true,
    Bool.and_eq_true, decide_eq_true_eq]
  constructor
  · intro h r c hr hc hocc
    obtain ⟨⟨⟨h1, h2⟩, h3⟩, h4⟩ := h r hr c hc hocc
    exact ⟨⟨h1, h2⟩, h3, h4⟩
  · intro h r hr c hc hocc
    obtain ⟨⟨h1, h2⟩, h3, h4⟩ := h r c hr hc hocc
    exact ⟨⟨⟨h1, h2⟩, h3⟩, h4⟩

/-- Full position bounds include the row bounds. -/
theorem cellsInBoard_rows (board shape : List (List Nat)) (x y : Int)
    (h : cellsInBoard board shape x y = true) : rowsInBoard board shape y = true := by
  rw [rowsInBoard_iff]
  intro r c hr hc hocc
  exact ((cellsInBoard_iff board shape x y).mp h r c hr hc hocc).1

/-- A placement accepted by `canPlace` has all its occupied cells inside
the board (no rectangularity assumption needed: these are exactly the four
bounds the check tests). -/
theorem canPlace_cells (board shape : List (List Nat)) (x y : Int)
    (h : canPlace board shape x y = true) : cellsInBoard board shape x y = true := by
  rw [cellsInBoard_iff]
  intro r c hr hc hocc
  simp only [canPlace, List.all_eq_true, List.mem_range] at h
  have h2 := ite_guard_eq_true.mp (h r hr c hc) hocc
  simp only [Bool.not_eq_true', Bool.or_eq_false_iff, decide_eq_false_iff_not] at h2
  obtain ⟨⟨⟨⟨h1, h2'⟩, h3⟩, h4⟩, _⟩ := h2
  refine ⟨⟨by omega, by omega⟩, by omega, by omega⟩

/-- An invariant held by the seed and preserved by every step of a fold
holds of the fold's result. -/
theorem foldl_preserve {α β : Type} (P : β → Prop) (f : β → α → β) :
    ∀ (l : List α) (b : β), P b → (∀ x ∈ l, ∀ acc, P acc → P (f acc x)) → P (l.foldl f b) := by
  intro l
  induction l with
  | nil =>
    intro b hb _
    exact hb
  | cons a t ih =>
    intro b hb hf
    rw [List.foldl_cons]
    exact ih (f b a) (hf a (by simp) b hb) (fun x hx acc hacc => hf x (by simp [hx]) acc hacc)

/-- When every occupied row of the shape lies inside the board, `merge`
does not fault, and it preserves the board's row count. -/
theorem merge_some_of_rows (board shape : List (List Nat)) (x y : Int)
    (hpos : rowsInBoard board shape y = true) :
    ∃ merged, merge board shape x y = some merged ∧ merged.length = board.length := by
  have hP := (rowsInBoard_iff board shape y).mp hpos
  rw [merge]
  exact foldl_preserve
    (fun ob => ∃ b, ob = some b ∧ b.length = board.length)
    (fun ob r => (List.range (shape.headD []).length).foldl
      (fun ob c => if (shape.getD r []).getD c 0 ≠ 0 then
        ob.bind fun b => setCell b (y + (r : Int)) (x + (c : Int))
      else ob) ob)
    (List.range shape.length) (some board) ⟨board, rfl, rfl⟩
    (fun r hr ob hob => foldl_preserve
      (fun ob => ∃ b, ob = some b ∧ b.length = board.length)
      (fun ob c => if (shape.getD r []).getD c 0 ≠ 0 then
        ob.bind fun b => setCell b (y + (r : Int)) (x + (c : Int))
      else ob)
      (List.range (shape.headD []).length) ob hob
      (fun c hc acc hacc => by
        dsimp only
        rw [List.mem_range] at hr hc
        by_cases hocc : (shape.getD r []).getD c 0 ≠ 0
        · rw [if_pos hocc]
          obtain ⟨b, rfl, hlen⟩ := hacc
          have hb := hP r c hr hc hocc
          rw [Option.some_bind, setCell, if_pos ⟨hb.1, by rw [hlen]; exact hb.2⟩]
          exact ⟨_, rfl, by rw [List.length_set, hlen]⟩
        · rw [if_neg hocc]
          exact hacc))

/-- The landing row found by `dropY` keeps the occupied rows inside the
board: every downward move it makes is validated by `canPlace`. -/
theorem dropY_rows (board shape : List (List Nat)) (x : Int) :
    ∀ (fuel : Nat) (y : Int), rowsInBoard board shape y = true →
      rowsInBoard board shape (dropY board shape x y fuel) = true := by
  intro fuel
  induction fuel with
  | zero =>
    intro y hy
    exact hy
  | succ n ih =>
    intro y hy
    simp only [dropY]
    by_cases hcp : canPlace board shape x (y + 1) = true
    · rw [if_pos hcp]
      exact ih (y + 1) (canPlace_rows board shape x (y + 1) hcp)
    · rw [if_neg hcp]
      exact hy

/-- `step` does not fault on a state whose piece has an in-range rotation
index and occupied rows inside the board. -/
theorem step_isSome_of (s : GameState) (p : Piece) (hp : s.piece = some p)
    (hr : p.r < (PIECE_MAP p.shape).length)
    (hpos : rowsInBoard s.board ((PIECE_MAP p.shape).getD p.r []) p.y = true) :
    (step s).isSome = true := by
  cases hov : s.over
  · rw [step_eq_of s p _ hov hp (getElem?_eq_some_getD _ p.r [] hr)]
    split
    · rfl
    · obtain ⟨merged, hm, _⟩ := merge_some_of_rows s.board _ p.x p.y hpos
      rw [hm]
      rfl
  · obtain ⟨b, pc, ov, sc⟩ := s
    simp only at hov
    subst hov
    simp [step]

/-! ## C3: rotation-index handling -/

/-- C3 counterexample: the engine does not reduce rotation indices modulo
the rotation-list length at lookup time.  `gameOBadRot` holds an active O
piece with rotation index 1 while `PIECE_MAP.O` has exactly one rotation
state, and `step` faults on it (in the source, `PIECE_MAP['O'][1]` is
`undefined` and the following property access throws) instead of wrapping
to index `1 % 1 = 0`. -/
theorem step_not_total_in_rotation :
    gameOBadRot.piece.isSome = true ∧ (PIECE_MAP Shape.O).length = 1 ∧ step gameOBadRot = none :=
  ⟨rfl, rfl, rfl⟩

/-- C3 amended: only `rotate` applies the modulo — it reduces the
incremented index modulo the kind's rotation-list length, so rotation
indices stay in range; the raw geometry lookups in `step`, `hardDrop` and
`draw` fault on an out-of-range index, and on well-formed states (in-range
rotation index, occupied rows inside the nonempty board — conditions the
well-formedness lemmas below show every reachable state satisfies) `step`,
`hardDrop` and `draw` never fault. -/
theorem rotation_index_amended (s : GameState) (p : Piece) (hp : s.piece = some p)
    (hr : p.r < (PIECE_MAP p.shape).length)
    (hpos : rowsInBoard s.board ((PIECE_MAP p.shape).getD p.r []) p.y = true)
    (hb : s.board.isEmpty = false) :
    (step s).isSome = true ∧ (dropToBottom s).isSome = true ∧ (hardDrop s).isSome = true ∧
      (drawPiece s).isSome = true ∧
      ∀ q, (rotate s).piece = some q → q.r < (PIECE_MAP q.shape).length := by
  have hsome := getElem?_eq_some_getD (PIECE_MAP p.shape) p.r [] hr
  have hdrop := dropToBottom_eq_of s p _ hp hsome
  refine ⟨step_isSome_of s p hp hr hpos, by rw [hdrop]; rfl, ?_, ?_, ?_⟩
  · rw [hardDrop, hdrop, Option.some_bind]
    exact step_isSome_of _
      { p with y := dropY s.board ((PIECE_MAP p.shape).getD p.r []) p.x p.y (s.board.length + 5) }
      rfl hr (dropY_rows s.board _ p.x (s.board.length + 5) p.y hpos)
  · obtain ⟨b, pc, ov, sc⟩ := s
    simp only at hp hb
    subst hp
    simp only [drawPiece, hb, Bool.false_eq_true, if_false, hsome]
    rfl
  · intro q hq
    rw [rotate_eq_of s p hp] at hq
    split at hq
    · simp only [Option.some.injEq] at hq
      subst hq
      exact Nat.mod_lt _ (PIECE_MAP_length_pos p.shape)
    · rw [hp, Option.some.injEq] at hq
      subst hq
      exact hr

/-- C3 amended witness: on the concrete in-range state `gameO` all four
operations succeed and the rotated piece's index is again in range. -/
theorem rotation_index_amended_witness :
    (step gameO).isSome = true ∧ (dropToBottom gameO).isSome = true ∧
      (hardDrop gameO).isSome = true ∧ (drawPiece gameO).isSome = true ∧
      ∀ q, (rotate gameO).piece = some q → q.r < (PIECE_MAP q.shape).length :=
  rotation_index_amended gameO pieceO rfl (by decide) (by decide) (by decide)

/-! ## C4: starvation behaviour -/

/-- C4 counterexample: starvation does not set the game state's terminal
flag.  On `starvedLoop` (no active piece, all-zero inventory, loop running)
`ensurePiece` leaves `over` at `false` — the source never writes `over`;
it only stops the loop via `setRunning(false)`. -/
theorem starvation_flag_not_set :
    starvedLoop.game.piece = none ∧ starvedLoop.inv Shape.I = 0 ∧ starvedLoop.inv Shape.O = 0 ∧
      starvedLoop.inv Shape.T = 0 ∧ starvedLoop.inv Shape.S = 0 ∧ starvedLoop.inv Shape.Z = 0 ∧
      starvedLoop.inv Shape.J = 0 ∧ starvedLoop.inv Shape.L = 0 ∧
      (ensurePiece starvedLoop 0).game.over = false ∧ (ensurePiece starvedLoop 0).running = false :=
  ⟨rfl, rfl, rfl, rfl, rfl, rfl, rfl, rfl, rfl, rfl⟩

/-- C4 amended: when a spawn is attempted with an all-zero inventory and no
piece is active, the loop's `running` flag is cleared (the pause) and
everything else — in particular the game state and its `over` flag — is
left unchanged; the `over` flag is never set by starvation. -/
theorem starvation_pauses_loop (ls : LoopState) (idx : Nat) (hp : ls.game.piece = none)
    (hinv : ∀ s, ls.inv s = 0) :
    ensurePiece ls idx = { ls with running := false } := by
  have havail : (SHAPES.filter fun s => decide (0 < ls.inv s)) = [] := by
    apply List.filter_eq_nil_iff.mpr
    intro a _
    simp [hinv a]
  rw [ensurePiece, hp]
  rw [spawnFromInventory, havail]
  rfl

/-- C4 amended witness: the starved concrete loop state is paused with its
game state intact. -/
theorem starvation_pauses_loop_witness :
    ensurePiece starvedLoop 0 = { starvedLoop with running := false } :=
  starvation_pauses_loop starvedLoop 0 rfl (fun _ => rfl)

/-! ## C1: one gravity tick -/

/-- C1: on a game state with an active falling piece, well-formed per the
data model — terminal flag unset, rotation index inside the kind's
rotation list, rectangular board, and the piece's occupied cells inside
the board (the well-formedness lemmas below show every reachable state
satisfies these: spawns are centered at row 0 and all later positions are
`canPlace`-validated, while `clearLines_spec` and `generateGarbage_spec`
show the game's boards stay rectangular) — a tick either moves the piece
one row down when its shape fits at `(x, y+1)`, leaving the board, the
score and the other piece fields unchanged, or else merges the piece into
the board at `(x, y)` (the merge succeeds), runs `clearLines` on the
merged board, adds `linesCleared * 100` to the score and leaves no active
piece. -/
theorem step_tick (s : GameState) (p : Piece) (hov : s.over = false) (hp : s.piece = some p)
    (hr : p.r < (PIECE_MAP p.shape).length)
    (_hrect : ∀ row ∈ s.board, row.length = (s.board.headD []).length)
    (hcells : cellsInBoard s.board ((PIECE_MAP p.shape).getD p.r []) p.x p.y = true) :
    (canPlace s.board ((PIECE_MAP p.shape).getD p.r []) p.x (p.y + 1) = true →
      step s = some { s with piece := some { p with y := p.y + 1 } }) ∧
    (canPlace s.board ((PIECE_MAP p.shape).getD p.r []) p.x (p.y + 1) = false →
      ∃ merged, merge s.board ((PIECE_MAP p.shape).getD p.r []) p.x p.y = some merged ∧
        step s = some { s with board := (clearLines merged).1, piece := none,
                               score := s.score + (clearLines merged).2 * 100 }) := by
  have hsome := getElem?_eq_some_getD (PIECE_MAP p.shape) p.r [] hr
  rw [step_eq_of s p _ hov hp hsome]
  constructor
  · intro hc
    rw [if_pos hc]
  · intro hc
    obtain ⟨merged, hm, _⟩ :=
      merge_some_of_rows s.board _ p.x p.y (cellsInBoard_rows _ _ p.x p.y hcells)
    refine ⟨merged, hm, ?_⟩
    rw [if_neg (by rw [hc]; exact Bool.false_ne_true), hm]
    rfl

/-- C1 witness: on the concrete state `gameO` the O piece fits one row
lower and the tick moves it there. -/
theorem step_tick_witness :
    canPlace gameO.board ((PIECE_MAP Shape.O).getD 0 []) 1 1 = true ∧
      step gameO = some { gameO with piece := some { pieceO with y := 1 } } :=
  ⟨by decide,
    (step_tick gameO pieceO rfl rfl (by decide) (by decide) (by decide)).1 (by decide)⟩

/-! ## C9: move and rotate validate before applying -/

/-- C9: with an active falling piece (rotation index in range), a
horizontal move or a rotation is applied exactly when `canPlace` accepts
the candidate (shifted column, or next rotation at the same anchor); a
rejected candidate leaves the state unchanged and raises no error. -/
theorem move_rotate_validated (s : GameState) (p : Piece) (dx : Int) (hp : s.piece = some p)
    (hr : p.r < (PIECE_MAP p.shape).length) :
    (canPlace s.board ((PIECE_MAP p.shape).getD p.r []) (p.x + dx) p.y = false →
      move dx s = some s) ∧
    (canPlace s.board ((PIECE_MAP p.shape).getD p.r []) (p.x + dx) p.y = true →
      move dx s = some { s with piece := some { p with x := p.x + dx } }) ∧
    (canPlace s.board ((PIECE_MAP p.shape).getD ((p.r + 1) % (PIECE_MAP p.shape).length) [])
        p.x p.y = false → rotate s = s) ∧
    (canPlace s.board ((PIECE_MAP p.shape).getD ((p.r + 1) % (PIECE_MAP p.shape).length) [])
        p.x p.y = true →
      rotate s = { s with piece := some { p with r := (p.r + 1) % (PIECE_MAP p.shape).length } }) := by
  have hsome := getElem?_eq_some_getD (PIECE_MAP p.shape) p.r [] hr
  rw [move_eq_of dx s p _ hp hsome, rotate_eq_of s p hp]
  refine ⟨fun hc => ?_, fun hc => ?_, fun hc => ?_, fun hc => ?_⟩
  · rw [if_neg (by rw [hc]; exact Bool.false_ne_true)]
  · rw [if_pos hc]
  · rw [if_neg (by rw [hc]; exact Bool.false_ne_true)]
  · rw [if_pos hc]

/-- C9 witness: on the concrete state `gameOLeft` a move into the left wall
is rejected as a no-op and the (trivial) O rotation is accepted in place. -/
theorem move_rotate_validated_witness :
    canPlace gameOLeft.board ((PIECE_MAP Shape.O).getD 0 []) (0 + -1) 0 = false ∧
      move (-1) gameOLeft = some gameOLeft ∧ rotate gameOLeft = gameOLeft :=
  ⟨by decide, (move_rotate_validated gameOLeft pieceOLeft (-1) rfl (by decide)).1 (by decide),
    (move_rotate_validated gameOLeft pieceOLeft (-1) rfl (by decide)).2.2.2 (by decide)⟩

/-! ## C5: the spawner -/

/-- C5: spawning returns no piece exactly when every kind's count is zero
(and never errors); on success (any in-range random index) it picks a kind
with positive count, decrements exactly that kind by one, reports it as
consumed, and returns a piece at rotation 0, row 0, column
`⌊(10 - matrixWidth)/2⌋`; and on the inventory `{I:1}` it always yields
kind I, leaves I at 0, and a further spawn yields no piece. -/
theorem spawn_spec (inv : Shape → Nat) (idx : Nat) :
    ((spawnFromInventory inv idx).piece = none ↔ ∀ s, inv s = 0) ∧
    (∀ k : Shape, idx < (SHAPES.filter fun s => decide (0 < inv s)).length →
      k = (SHAPES.filter fun s => decide (0 < inv s)).getD idx Shape.I →
      0 < inv k ∧
      (spawnFromInventory inv idx).piece =
        some ⟨k, ((10 - (((PIECE_MAP k).getD 0 []).headD []).length) / 2 : Nat), 0, 0⟩ ∧
      (spawnFromInventory inv idx).consumed = some k ∧
      (spawnFromInventory inv idx).inv k = inv k - 1 ∧
      ∀ s : Shape, s ≠ k → (spawnFromInventory inv idx).inv s = inv s) ∧
    (spawnFromInventory invI 0).piece = some ⟨Shape.I, 3, 0, 0⟩ ∧
    (spawnFromInventory invI 0).consumed = some Shape.I ∧
    (spawnFromInventory invI 0).inv Shape.I = 0 ∧
    (spawnFromInventory (spawnFromInventory invI 0).inv 0).piece = none := by
  have hiff : (SHAPES.filter fun s => decide (0 < inv s)) = [] ↔ ∀ s, inv s = 0 := by
    rw [List.filter_eq_nil_iff]
    constructor
    · intro h s
      have := h s (mem_SHAPES s)
      simpa using this
    · intro h a _
      simp [h a]
  refine ⟨?_, ?_, by decide, by decide, by decide, by decide⟩
  · cases hE : (SHAPES.filter fun s => decide (0 < inv s)).isEmpty
    · have hne : (SHAPES.filter fun s => decide (0 < inv s)) ≠ [] := by
        intro h
        rw [h] at hE
        exact absurd hE (by simp)
      simp only [spawnFromInventory, hE]
      constructor
      · intro h
        exact absurd h (by simp)
      · intro h
        exact absurd (hiff.mpr h) hne
    · have hnil : (SHAPES.filter fun s => decide (0 < inv s)) = [] :=
        List.isEmpty_iff.mp hE
      simp only [spawnFromInventory, hE]
      simpa using hiff.mp hnil
  · intro k hidx hk
    have hne : (SHAPES.filter fun s => decide (0 < inv s)).isEmpty = false := by
      cases hE : (SHAPES.filter fun s => decide (0 < inv s)).isEmpty
      · rfl
      · rw [List.isEmpty_iff.mp hE] at hidx
        exact absurd hidx (by simp)
    have hkmem : k ∈ SHAPES.filter fun s => decide (0 < inv s) := by
      rw [hk, List.getD_eq_getElem?_getD, List.getElem?_eq_getElem hidx]
      exact List.getElem_mem hidx
    have hkpos : 0 < inv k := by
      have := (List.mem_filter.mp hkmem).2
      simpa using this
    refine ⟨hkpos, ?_, ?_, ?_, ?_⟩
    · simp only [spawnFromInventory, hne, Bool.false_eq_true, if_false, ← hk]
    · simp only [spawnFromInventory, hne, Bool.false_eq_true, if_false, ← hk]
    · simp only [spawnFromInventory, hne, Bool.false_eq_true, if_false, ← hk]
      exact Function.update_same k (inv k - 1) inv
    · intro s hs
      simp only [spawnFromInventory, hne, Bool.false_eq_true, if_false, ← hk]
      exact Function.update_noteq hs (inv k - 1) inv

/-- C5 witness: instantiating the spawner specification at the scenario
inventory `{I:1}` and index 0. -/
theorem spawn_spec_witness :
    0 < invI Shape.I ∧ (spawnFromInventory invI 0).piece = some ⟨Shape.I, 3, 0, 0⟩ ∧
      (spawnFromInventory invI 0).inv Shape.I = invI Shape.I - 1 :=
  have h := (spawn_spec invI 0).2.1 Shape.I (by decide) (by decide)
  ⟨h.1, h.2.1, h.2.2.2.1⟩

/-! ## C6: line clearing -/

/-- On a binary row, "has an unoccupied cell" is the negation of "full". -/
theorem any_zero_eq_not_all_one (row : List Nat) (hbin : ∀ v ∈ row, v = 0 ∨ v = 1) :
    (row.any fun v => v == 0) = !(row.all fun v => v == 1) := by
  induction row with
  | nil => rfl
  | cons a t ih =>
    have ha := hbin a (by simp)
    have ht : ∀ v ∈ t, v = 0 ∨ v = 1 := fun v hv => hbin v (by simp [hv])
    cases ha with
    | inl h => subst h; simp
    | inr h => subst h; simp [ih ht]

/-- The rows kept by a filter and those dropped by it partition the list. -/
theorem length_filter_partition (p : List Nat → Bool) (l : List (List Nat)) :
    (l.filter p).length + (l.filter fun a => !(p a)).length = l.length := by
  induction l with
  | nil => rfl
  | cons a t ih =>
    cases hpa : p a <;> simp [List.filter_cons, hpa] <;> omega

/-- C6: `clearLines` removes exactly the fully occupied rows (on a board of
binary rows of uniform width `W`), reports their number, prepends that many
empty rows, keeps the surviving rows in relative order, and preserves the
board's row count and row widths; on the 4-row scenario board it clears 2
lines. -/
theorem clearLines_spec (board : List (List Nat)) (W : Nat)
    (hw : ∀ row ∈ board, row.length = W)
    (hbin : ∀ row ∈ board, ∀ v ∈ row, v = 0 ∨ v = 1) :
    (clearLines board).2 = (board.filter fun row => row.all fun v => v == 1).length ∧
    (clearLines board).1 = List.replicate (clearLines board).2 (List.replicate W 0)
      ++ board.filter (fun row => !(row.all fun v => v == 1)) ∧
    (clearLines board).1.length = board.length ∧
    (∀ row ∈ (clearLines board).1, row.length = W) ∧
    (clearLines clearBoard4).2 = 2 := by
  have hkept : (board.filter fun row => row.any fun v => v == 0)
      = board.filter fun row => !(row.all fun v => v == 1) := by
    apply List.filter_congr
    intro row hrow
    exact any_zero_eq_not_all_one row (hbin row hrow)
  have hpart := length_filter_partition (fun row => row.all fun v => v == 1) board
  have hcleared : (clearLines board).2
      = (board.filter fun row => row.all fun v => v == 1).length := by
    simp only [clearLines, hkept]
    omega
  have hwidth : (clearLines board).2 > 0 → (board.headD []).length = W := by
    intro hpos
    cases board with
    | nil => simp [clearLines] at hpos
    | cons r t => exact hw r (by simp)
  refine ⟨hcleared, ?_, ?_, ?_, by decide⟩
  · by_cases hz : (clearLines board).2 = 0
    · simp only [clearLines, hkept] at hz ⊢
      simp [hz]
    · have hW := hwidth (Nat.pos_of_ne_zero hz)
      simp only [clearLines, hkept] at hW ⊢
      rw [hW]
  · have hle : (board.filter fun row => row.any fun v => v == 0).length ≤ board.length :=
      List.length_filter_le _ _
    simp only [clearLines, hkept] at hle ⊢
    simp only [List.length_append, List.length_replicate]
    omega
  · intro row hrow
    by_cases hz : (clearLines board).2 = 0
    · simp only [clearLines, hkept] at hz hrow
      rw [hz] at hrow
      simp only [List.replicate_zero, List.nil_append] at hrow
      exact hw row (List.mem_of_mem_filter hrow)
    · have hW := hwidth (Nat.pos_of_ne_zero hz)
      simp only [clearLines, hkept] at hW hrow
      rcases List.mem_append.mp hrow with hmem | hmem
      · rw [List.eq_of_mem_replicate hmem, List.length_replicate, hW]
      · exact hw row (List.mem_of_mem_filter hmem)

/-- C6 witness: the clearLines specification instantiated at the 4-row
scenario board. -/
theorem clearLines_spec_witness :
    (clearLines clearBoard4).2 = 2 ∧ (clearLines clearBoard4).1.length = clearBoard4.length :=
  have h := clearLines_spec clearBoard4 4 (by decide) (by decide)
  ⟨h.2.2.2.2, h.2.2.1⟩

/-! ## C7: placement validity -/

/-- The per-cell check of `canPlace`, restated over a rectangular board of
width `W`: the offset cell is in bounds and unoccupied. -/
theorem cell_check_iff (board : List (List Nat)) (W : Nat)
    (hb : ∀ row ∈ board, row.length = W) (u v : Int) :
    (!(decide (v < 0) || decide ((board.length : Int) ≤ v)
        || decide (u < 0) || decide (((board.headD []).length : Int) ≤ u)
        || ((board.getD v.toNat []).getD u.toNat 0 != 0))) = true ↔
      0 ≤ v ∧ v < (board.length : Int) ∧ 0 ≤ u ∧ u < (W : Int) ∧
        (board.getD v.toNat []).getD u.toNat 0 = 0 := by
  cases board with
  | nil =>
    simp only [Bool.not_eq_true', Bool.or_eq_false_iff, decide_eq_false_iff_not,
      bne_eq_false_iff_eq, not_lt, not_le, List.length_nil, List.getD_nil, List.headD_nil,
      Nat.cast_zero]
    constructor
    · intro h
      omega
    · intro h
      omega
  | cons b bs =>
    have hW : b.length = W := hb b (by simp)
    simp only [Bool.not_eq_true', Bool.or_eq_false_iff, decide_eq_false_iff_not,
      bne_eq_false_iff_eq, not_lt, not_le, List.headD_cons, hW]
    constructor
    · rintro ⟨⟨⟨⟨h1, h2⟩, h3⟩, h4⟩, h5⟩
      exact ⟨h1, h2, h3, h4, h5⟩
    · rintro ⟨h1, h2, h3, h4, h5⟩
      exact ⟨⟨⟨⟨h1, h2⟩, h3⟩, h4⟩, h5⟩

/-- C7: `canPlace(board, shape, x, y)` is true iff every occupied shape
cell, offset by `(x, y)`, lands inside the board and on an unoccupied
cell (boards and shapes being rectangular of widths `W` and `SW`); on an
empty 4-by-4 board the 2-by-2 square fits at (1,1) but not at (3,3). -/
theorem canPlace_spec (board shape : List (List Nat)) (x y : Int) (W SW : Nat)
    (hb : ∀ row ∈ board, row.length = W) (hs : ∀ row ∈ shape, row.length = SW) :
    (canPlace board shape x y = true ↔
      ∀ r c : Nat, r < shape.length → c < SW → (shape.getD r []).getD c 0 ≠ 0 →
        0 ≤ y + (r : Int) ∧ y + (r : Int) < (board.length : Int) ∧
        0 ≤ x + (c : Int) ∧ x + (c : Int) < (W : Int) ∧
        (board.getD (y + (r : Int)).toNat []).getD (x + (c : Int)).toNat 0 = 0) ∧
    canPlace (createBoard 4 4) square2 1 1 = true ∧
    canPlace (createBoard 4 4) square2 3 3 = false := by
  refine ⟨?_, by decide, by decide⟩
  cases shape with
  | nil =>
    simp only [canPlace, List.length_nil, List.range_zero, List.all_nil, true_iff]
    intro r c hr
    exact absurd hr (Nat.not_lt_zero r)
  | cons hd tl =>
    have hhd : hd.length = SW := hs hd (by simp)
    simp only [canPlace, List.headD_cons, hhd, List.all_eq_true, List.mem_range,
      ite_guard_eq_true]
    constructor
    · intro h r c hr hc hocc
      exact (cell_check_iff board W hb (x + (c : Int)) (y + (r : Int))).mp (h r hr c hc hocc)
    · intro h r hr c hc hocc
      exact (cell_check_iff board W hb (x + (c : Int)) (y + (r : Int))).mpr (h r c hr hc hocc)

/-- C7 witness: the canPlace specification instantiated at the scenario
board and square shape. -/
theorem canPlace_spec_witness :
    canPlace (createBoard 4 4) square2 1 1 = true ∧ canPlace (createBoard 4 4) square2 3 3 = false :=
  (canPlace_spec (createBoard 4 4) square2 1 1 4 2 (by decide) (by decide)).2

/-! ## C8: garbage generation -/

/-- `getD` after `set` at the written index. -/
theorem getD_set_self {α : Type} (l : List α) (i : Nat) (a d : α) (h : i < l.length) :
    (l.set i a).getD i d = a := by
  rw [List.getD_eq_getElem?_getD, List.getElem?_set_self h]
  rfl

/-- `getD` after `set` at a different index. -/
theorem getD_set_ne {α : Type} (l : List α) (i j : Nat) (a d : α) (h : i ≠ j) :
    (l.set i a).getD j d = l.getD j d := by
  rw [List.getD_eq_getElem?_getD, List.getElem?_set_ne h, ← List.getD_eq_getElem?_getD]

/-- A garbage row has one cell per column. -/
theorem garbageRow_length (w gap : Nat) (fill : Nat → Bool) :
    (garbageRow w gap fill).length = w := by
  simp [garbageRow]

/-- The gap column of a garbage row is unoccupied. -/
theorem garbageRow_getD_gap (w gap : Nat) (fill : Nat → Bool) (hgap : gap < w) :
    (garbageRow w gap fill).getD gap 0 = 0 := by
  rw [garbageRow, List.getD_eq_getElem?_getD, List.getElem?_map, List.getElem?_range hgap]
  simp

/-- With an in-range gap a garbage row is never fully occupied, so the
forced-clearing branch of the source is dead code. -/
theorem garbageFinalRow_of_gap (w gap : Nat) (fill : Nat → Bool) (force : Nat)
    (hgap : gap < w) : garbageFinalRow w gap fill force = garbageRow w gap fill := by
  have hmem : (0 : Nat) ∈ garbageRow w gap fill := by
    have : (garbageRow w gap fill)[gap]? = some 0 := by
      rw [garbageRow, List.getElem?_map, List.getElem?_range hgap]
      simp
    exact List.getElem?_mem this
  have hall : (garbageRow w gap fill).all (fun v => v == 1) = false := by
    cases h : (garbageRow w gap fill).all (fun v => v == 1)
    · rfl
    · have := List.all_eq_true.mp h 0 hmem
      simp at this
  rw [garbageFinalRow]
  simp [hall]

/-- Unfolding one step of the garbage fold. -/
theorem generateGarbage_succ (h w n : Nat) (gapF : Nat → Nat) (fillF : Nat → Nat → Bool)
    (forceF : Nat → Nat) :
    generateGarbage h w (n + 1) gapF fillF forceF =
      (generateGarbage h w n gapF fillF forceF).set (h - 1 - n)
        (garbageFinalRow w (gapF n) (fillF n) (forceF n)) := by
  rw [generateGarbage, generateGarbage, List.range_succ, List.foldl_append]
  rfl

/-- Shape of the generated board: `h` rows; row `j` is the finished garbage
row for `i = h-1-j` when `j` lies in the bottom `rows` rows, and is empty
otherwise. -/
theorem generateGarbage_getD (h w rows : Nat) (gapF : Nat → Nat) (fillF : Nat → Nat → Bool)
    (forceF : Nat → Nat) (hrows : rows ≤ h) :
    (generateGarbage h w rows gapF fillF forceF).length = h ∧
      ∀ j, j < h → (generateGarbage h w rows gapF fillF forceF).getD j [] =
        if h - rows ≤ j then garbageFinalRow w (gapF (h - 1 - j)) (fillF (h - 1 - j)) (forceF (h - 1 - j))
        else List.replicate w 0 := by
  induction rows with
  | zero =>
    refine ⟨by simp [generateGarbage, createBoard], ?_⟩
    intro j hj
    rw [if_neg (by omega)]
    rw [generateGarbage]
    simp only [List.range_zero, List.foldl_nil, createBoard]
    rw [List.getD_eq_getElem?_getD, List.getElem?_replicate_of_lt hj]
    rfl
  | succ n ih =>
    obtain ⟨ihlen, ihget⟩ := ih (by omega)
    refine ⟨by rw [generateGarbage_succ, List.length_set, ihlen], ?_⟩
    intro j hj
    rw [generateGarbage_succ]
    by_cases hje : h - 1 - n = j
    · subst hje
      rw [getD_set_self _ _ _ _ (by rw [ihlen]; omega)]
      have hn : h - 1 - (h - 1 - n) = n := by omega
      rw [if_pos (show h - (n + 1) ≤ h - 1 - n by omega), hn]
    · rw [getD_set_ne _ _ _ _ _ hje, ihget j hj]
      by_cases hc : h - n ≤ j
      · rw [if_pos hc, if_pos (show h - (n + 1) ≤ j by omega)]
      · rw [if_neg hc, if_neg (show ¬h - (n + 1) ≤ j by omega)]

/-- C8 counterexample: at `h = 1, w = 0, rows = 1` (with the only draws
`Math.floor(Math.random()*0) = 0` can produce) the generated board is
`[[0]]`: the vacuously "fully occupied" empty row triggers the forced
clearing, whose JS assignment `b[0][0] = 0` grows the row to one cell, so
the result does not have `w = 0` columns. -/
theorem generateGarbage_zero_width :
    generateGarbage 1 0 1 zeroDraw fullFill zeroDraw = [[0]] ∧
      ((generateGarbage 1 0 1 zeroDraw fullFill zeroDraw).getD 0 []).length ≠ 0 :=
  ⟨rfl, by decide⟩

/-- C8 amended: for every `1 ≤ w`, `rows ≤ h` and every sequence of random
draws, the generated board has exactly `h` rows of `w` cells, is empty
above the bottom `rows` rows, and each of those bottom rows keeps its gap
column unoccupied (so none is full at generation time). -/
theorem generateGarbage_spec (h w rows : Nat) (gapF : Nat → Nat) (fillF : Nat → Nat → Bool)
    (forceF : Nat → Nat) (hrows : rows ≤ h) (_hw : 1 ≤ w) (hgap : ∀ i, i < rows → gapF i < w) :
    (generateGarbage h w rows gapF fillF forceF).length = h ∧
      (∀ row ∈ generateGarbage h w rows gapF fillF forceF, row.length = w) ∧
      (∀ j, j < h - rows →
        (generateGarbage h w rows gapF fillF forceF).getD j [] = List.replicate w 0) ∧
      (∀ i, i < rows →
        ((generateGarbage h w rows gapF fillF forceF).getD (h - 1 - i) []).getD (gapF i) 0 = 0) := by
  obtain ⟨hlen, hget⟩ := generateGarbage_getD h w rows gapF fillF forceF hrows
  have hrow : ∀ j, j < h → ((generateGarbage h w rows gapF fillF forceF).getD j []).length = w := by
    intro j hj
    rw [hget j hj]
    by_cases hc : h - rows ≤ j
    · rw [if_pos hc]
      rw [garbageFinalRow_of_gap _ _ _ _ (hgap (h - 1 - j) (by omega))]
      exact garbageRow_length _ _ _
    · rw [if_neg hc, List.length_replicate]
  refine ⟨hlen, ?_, ?_, ?_⟩
  · intro row hrowmem
    obtain ⟨j, hj, hje⟩ := List.mem_iff_getElem.mp hrowmem
    have : (generateGarbage h w rows gapF fillF forceF).getD j [] = row := by
      rw [List.getD_eq_getElem?_getD, List.getElem?_eq_getElem hj, hje]
      rfl
    rw [← this]
    exact hrow j (by rw [← hlen]; exact hj)
  · intro j hj
    rw [hget j (by omega), if_neg (by omega)]
  · intro i hi
    have hj : h - 1 - i < h := by omega
    rw [hget (h - 1 - i) hj, if_pos (by omega)]
    have hi2 : h - 1 - (h - 1 - i) = i := by omega
    rw [hi2, garbageFinalRow_of_gap _ _ _ _ (hgap i hi)]
    exact garbageRow_getD_gap _ _ _ (hgap i hi)

/-- C8 amended witness: a 2-by-3 board with one garbage row at the bottom,
generated from the constant draws, leaves the gap cell of the bottom row
unoccupied. -/
theorem generateGarbage_spec_witness :
    (generateGarbage 2 3 1 zeroDraw fullFill zeroDraw).length = 2 ∧
      ((generateGarbage 2 3 1 zeroDraw fullFill zeroDraw).getD 1 []).getD 0 0 = 0 :=
  have h := generateGarbage_spec 2 3 1 zeroDraw fullFill zeroDraw (by decide) (by decide)
    (fun i _ => by simp [zeroDraw])
  ⟨h.1, h.2.2.2 0 (by decide)⟩

/-! ## Well-formedness is an invariant of the game

These lemmas justify the well-formedness hypotheses used above: every
state the program can actually reach — fresh boards and the results of
`step`, `move`, `rotate`, `hardDrop` and `ensurePiece` — satisfies
`WFState`. -/

/-- A state with no active piece and a clear flag is well formed. -/
theorem WFState_of_none (s : GameState) (hov : s.over = false) (hp : s.piece = none) :
    WFState s := by
  refine ⟨hov, fun p hp2 => ?_⟩
  rw [hp] at hp2
  cases hp2

/-- Fresh games (`reset`, and the component's initial state of the same
shape) are well formed. -/
theorem reset_WF (prefill : Nat) (gapF : Nat → Nat) (fillF : Nat → Nat → Bool)
    (forceF : Nat → Nat) : WFState (reset prefill gapF fillF forceF) :=
  WFState_of_none _ rfl rfl

/-- A spawned piece starts at rotation index 0, row 0, and the centered
column `⌊(10 - matrixWidth)/2⌋`. -/
theorem spawnFromInventory_piece_rot (inv : Shape → Nat) (idx : Nat) (p : Piece)
    (h : (spawnFromInventory inv idx).piece = some p) :
    p.r = 0 ∧ p.y = 0 ∧
      p.x = (((10 - (((PIECE_MAP p.shape).getD 0 []).headD []).length) / 2 : Nat) : Int) := by
  cases hE : (SHAPES.filter fun s => decide (0 < inv s)).isEmpty
  · simp only [spawnFromInventory, hE, Bool.false_eq_true, if_false] at h
    rw [Option.some.injEq] at h
    subst h
    exact ⟨rfl, rfl, rfl⟩
  · simp only [spawnFromInventory, hE, if_true] at h
    cases h

/-- `step` preserves well-formedness. -/
theorem step_WF (s t : GameState) (hwf : WFState s) (h : step s = some t) : WFState t := by
  obtain ⟨hov, hpr⟩ := hwf
  cases hp : s.piece with
  | none =>
    rw [step_of_none s hp, Option.some.injEq] at h
    subst h
    exact WFState_of_none s hov hp
  | some p =>
    have hr := hpr p hp
    rw [step_eq_of s p _ hov hp (getElem?_eq_some_getD _ p.r [] hr)] at h
    split at h
    · rw [Option.some.injEq] at h
      subst h
      exact ⟨hov, fun q hq => by rw [Option.some.injEq] at hq; subst hq; exact hr⟩
    · cases hm : merge s.board ((PIECE_MAP p.shape).getD p.r []) p.x p.y with
      | none =>
        rw [hm] at h
        simp at h
      | some m =>
        rw [hm, Option.map_some', Option.some.injEq] at h
        subst h
        exact WFState_of_none _ hov rfl

/-- `move` preserves well-formedness. -/
theorem move_WF (dx : Int) (s t : GameState) (hwf : WFState s) (h : move dx s = some t) :
    WFState t := by
  obtain ⟨hov, hpr⟩ := hwf
  cases hp : s.piece with
  | none =>
    rw [move_of_none dx s hp, Option.some.injEq] at h
    subst h
    exact WFState_of_none s hov hp
  | some p =>
    have hr := hpr p hp
    rw [move_eq_of dx s p _ hp (getElem?_eq_some_getD _ p.r [] hr)] at h
    split at h <;> rw [Option.some.injEq] at h <;> subst h
    · exact ⟨hov, fun q hq => by rw [Option.some.injEq] at hq; subst hq; exact hr⟩
    · exact ⟨hov, hpr⟩

/-- `rotate` preserves well-formedness. -/
theorem rotate_WF (s : GameState) (hwf : WFState s) : WFState (rotate s) := by
  obtain ⟨hov, hpr⟩ := hwf
  cases hp : s.piece with
  | none =>
    rw [rotate_of_none s hp]
    exact ⟨hov, hpr⟩
  | some p =>
    rw [rotate_eq_of s p hp]
    split
    · refine ⟨hov, fun q hq => ?_⟩
      rw [Option.some.injEq] at hq
      subst hq
      exact Nat.mod_lt _ (PIECE_MAP_length_pos p.shape)
    · exact ⟨hov, hpr⟩

/-- `hardDrop` preserves well-formedness. -/
theorem hardDrop_WF (s t : GameState) (hwf : WFState s) (h : hardDrop s = some t) :
    WFState t := by
  obtain ⟨hov, hpr⟩ := hwf
  cases hp : s.piece with
  | none =>
    rw [hardDrop_of_none s hp, Option.some.injEq] at h
    subst h
    exact WFState_of_none s hov hp
  | some p =>
    have hr := hpr p hp
    rw [hardDrop, dropToBottom_eq_of s p _ hp (getElem?_eq_some_getD _ p.r [] hr),
      Option.some_bind] at h
    refine step_WF
      { s with piece := some { p with
          y := dropY s.board ((PIECE_MAP p.shape).getD p.r []) p.x p.y (s.board.length + 5) } }
      t ⟨hov, fun q hq => ?_⟩ h
    simp only [Option.some.injEq] at hq
    subst hq
    exact hr

/-- `ensurePiece` preserves well-formedness of the game state. -/
theorem ensurePiece_WF (ls : LoopState) (idx : Nat) (hwf : WFState ls.game) :
    WFState (ensurePiece ls idx).game := by
  cases hp : ls.game.piece with
  | some p =>
    simp only [ensurePiece, hp]
    exact hwf
  | none =>
    simp only [ensurePiece, hp]
    cases hsp : (spawnFromInventory ls.inv idx).piece with
    | none => exact WFState_of_none _ hwf.1 hp
    | some p =>
      refine ⟨hwf.1, fun q hq => ?_⟩
      rw [Option.some.injEq] at hq
      subst hq
      rw [(spawnFromInventory_piece_rot ls.inv idx p hsp).1]
      exact PIECE_MAP_length_pos p.shape

/-! ## Positional well-formedness is an invariant too

The hypotheses `rowsInBoard … = true` used by the C1 and C3 theorems hold
in every reachable state: fresh boards carry no piece, spawns place a
2-row-tall matrix at row 0 of the 20-row board, and every later position
is validated by `canPlace`, which checks exactly these row bounds. -/

/-- A state with no active piece is positionally well formed. -/
theorem WFPos_of_none (s : GameState) (hp : s.piece = none) : WFPos s := by
  intro p hp2
  rw [hp] at hp2
  cases hp2

/-- Fresh games are positionally well formed. -/
theorem reset_rows_WF (prefill : Nat) (gapF : Nat → Nat) (fillF : Nat → Nat → Bool)
    (forceF : Nat → Nat) : WFPos (reset prefill gapF fillF forceF) :=
  WFPos_of_none _ rfl

/-- Every kind's 0th rotation matrix is at most 2 rows tall. -/
theorem rot0_height_le (k : Shape) : ((PIECE_MAP k).getD 0 []).length ≤ 2 := by
  cases k <;> decide

/-- `step` preserves positional well-formedness. -/
theorem step_rows_WF (s t : GameState) (hwf : WFState s) (hpos : WFPos s)
    (h : step s = some t) : WFPos t := by
  obtain ⟨hov, hpr⟩ := hwf
  cases hp : s.piece with
  | none =>
    rw [step_of_none s hp, Option.some.injEq] at h
    subst h
    exact hpos
  | some p =>
    have hr := hpr p hp
    rw [step_eq_of s p _ hov hp (getElem?_eq_some_getD _ p.r [] hr)] at h
    split at h
    · rename_i hc
      rw [Option.some.injEq] at h
      subst h
      intro q hq
      simp only [Option.some.injEq] at hq
      subst hq
      exact canPlace_rows s.board _ p.x (p.y + 1) hc
    · cases hm : merge s.board ((PIECE_MAP p.shape).getD p.r []) p.x p.y with
      | none =>
        rw [hm] at h
        simp at h
      | some m =>
        rw [hm, Option.map_some', Option.some.injEq] at h
        subst h
        exact WFPos_of_none _ rfl

/-- `move` preserves positional well-formedness. -/
theorem move_rows_WF (dx : Int) (s t : GameState) (hwf : WFState s) (hpos : WFPos s)
    (h : move dx s = some t) : WFPos t := by
  obtain ⟨hov, hpr⟩ := hwf
  cases hp : s.piece with
  | none =>
    rw [move_of_none dx s hp, Option.some.injEq] at h
    subst h
    exact hpos
  | some p =>
    have hr := hpr p hp
    rw [move_eq_of dx s p _ hp (getElem?_eq_some_getD _ p.r [] hr)] at h
    split at h <;> rw [Option.some.injEq] at h <;> subst h
    · intro q hq
      simp only [Option.some.injEq] at hq
      subst hq
      exact hpos p hp
    · exact hpos

/-- `rotate` preserves positional well-formedness. -/
theorem rotate_rows_WF (s : GameState) (hpos : WFPos s) : WFPos (rotate s) := by
  cases hp : s.piece with
  | none =>
    rw [rotate_of_none s hp]
    exact hpos
  | some p =>
    rw [rotate_eq_of s p hp]
    split
    · rename_i hc
      intro q hq
      simp only [Option.some.injEq] at hq
      subst hq
      exact canPlace_rows s.board _ p.x p.y hc
    · exact hpos

/-- `hardDrop` preserves positional well-formedness. -/
theorem hardDrop_rows_WF (s t : GameState) (hwf : WFState s) (hpos : WFPos s)
    (h : hardDrop s = some t) : WFPos t := by
  obtain ⟨hov, hpr⟩ := hwf
  cases hp : s.piece with
  | none =>
    rw [hardDrop_of_none s hp, Option.some.injEq] at h
    subst h
    exact hpos
  | some p =>
    have hr := hpr p hp
    rw [hardDrop, dropToBottom_eq_of s p _ hp (getElem?_eq_some_getD _ p.r [] hr),
      Option.some_bind] at h
    refine step_rows_WF
      { s with piece := some { p with
          y := dropY s.board ((PIECE_MAP p.shape).getD p.r []) p.x p.y (s.board.length + 5) } }
      t ⟨hov, fun q hq => ?_⟩ (fun q hq => ?_) h
    · simp only [Option.some.injEq] at hq
      subst hq
      exact hr
    · simp only [Option.some.injEq] at hq
      subst hq
      exact dropY_rows s.board _ p.x (s.board.length + 5) p.y (hpos p hp)

/-- `ensurePiece` preserves positional well-formedness of the game state:
spawned pieces sit at row 0 with a matrix at most 2 rows tall, inside any
board of at least 2 rows (the game's boards have 20). -/
theorem ensurePiece_rows_WF (ls : LoopState) (idx : Nat) (hpos : WFPos ls.game)
    (hlen : 2 ≤ ls.game.board.length) : WFPos (ensurePiece ls idx).game := by
  cases hp : ls.game.piece with
  | some p =>
    simp only [ensurePiece, hp]
    exact hpos
  | none =>
    simp only [ensurePiece, hp]
    cases hsp : (spawnFromInventory ls.inv idx).piece with
    | none => exact hpos
    | some p =>
      intro q hq
      simp only [Option.some.injEq] at hq
      subst hq
      obtain ⟨hr0, hy0, _⟩ := spawnFromInventory_piece_rot ls.inv idx p hsp
      dsimp only
      rw [hr0, hy0, rowsInBoard_iff]
      intro r c hrlt hclt hocc
      have hh := rot0_height_le p.shape
      constructor
      · omega
      · omega

/-! ## Full positional well-formedness is an invariant

The `cellsInBoard` hypothesis of the C1 theorem also holds in every
reachable state: spawned matrices are at most 2 rows tall and 4 columns
wide and sit centered at row 0 of the 20-by-10 board, and every later
position is validated by `canPlace`, which checks all four bounds. -/

/-- A state with no active piece is fully positionally well formed. -/
theorem WFCells_of_none (s : GameState) (hp : s.piece = none) : WFCells s := by
  intro p hp2
  rw [hp] at hp2
  cases hp2

/-- Fresh games are fully positionally well formed. -/
theorem reset_cells_WF (prefill : Nat) (gapF : Nat → Nat) (fillF : Nat → Nat → Bool)
    (forceF : Nat → Nat) : WFCells (reset prefill gapF fillF forceF) :=
  WFCells_of_none _ rfl

/-- Every kind's 0th rotation matrix is at most 4 columns wide. -/
theorem rot0_width_le (k : Shape) : (((PIECE_MAP k).getD 0 []).headD []).length ≤ 4 := by
  cases k <;> decide

/-- The landing row found by `dropY` keeps the occupied cells inside the
board: every downward move it makes is validated by `canPlace`. -/
theorem dropY_cells (board shape : List (List Nat)) (x : Int) :
    ∀ (fuel : Nat) (y : Int), cellsInBoard board shape x y = true →
      cellsInBoard board shape x (dropY board shape x y fuel) = true := by
  intro fuel
  induction fuel with
  | zero =>
    intro y hy
    exact hy
  | succ n ih =>
    intro y hy
    simp only [dropY]
    by_cases hcp : canPlace board shape x (y + 1) = true
    · rw [if_pos hcp]
      exact ih (y + 1) (canPlace_cells board shape x (y + 1) hcp)
    · rw [if_neg hcp]
      exact hy

/-- `step` preserves full positional well-formedness. -/
theorem step_cells_WF (s t : GameState) (hwf : WFState s) (hpos : WFCells s)
    (h : step s = some t) : WFCells t := by
  obtain ⟨hov, hpr⟩ := hwf
  cases hp : s.piece with
  | none =>
    rw [step_of_none s hp, Option.some.injEq] at h
    subst h
    exact hpos
  | some p =>
    have hr := hpr p hp
    rw [step_eq_of s p _ hov hp (getElem?_eq_some_getD _ p.r [] hr)] at h
    split at h
    · rename_i hc
      rw [Option.some.injEq] at h
      subst h
      intro q hq
      simp only [Option.some.injEq] at hq
      subst hq
      exact canPlace_cells s.board _ p.x (p.y + 1) hc
    · cases hm : merge s.board ((PIECE_MAP p.shape).getD p.r []) p.x p.y with
      | none =>
        rw [hm] at h
        simp at h
      | some m =>
        rw [hm, Option.map_some', Option.some.injEq] at h
        subst h
        exact WFCells_of_none _ rfl

/-- `move` preserves full positional well-formedness. -/
theorem move_cells_WF (dx : Int) (s t : GameState) (hwf : WFState s) (hpos : WFCells s)
    (h : move dx s = some t) : WFCells t := by
  obtain ⟨hov, hpr⟩ := hwf
  cases hp : s.piece with
  | none =>
    rw [move_of_none dx s hp, Option.some.injEq] at h
    subst h
    exact hpos
  | some p =>
    have hr := hpr p hp
    rw [move_eq_of dx s p _ hp (getElem?_eq_some_getD _ p.r [] hr)] at h
    split at h <;> rw [Option.some.injEq] at h <;> subst h
    · rename_i hc
      intro q hq
      simp only [Option.some.injEq] at hq
      subst hq
      exact canPlace_cells s.board _ (p.x + dx) p.y hc
    · exact hpos

/-- `rotate` preserves full positional well-formedness. -/
theorem rotate_cells_WF (s : GameState) (hpos : WFCells s) : WFCells (rotate s) := by
  cases hp : s.piece with
  | none =>
    rw [rotate_of_none s hp]
    exact hpos
  | some p =>
    rw [rotate_eq_of s p hp]
    split
    · rename_i hc
      intro q hq
      simp only [Option.some.injEq] at hq
      subst hq
      exact canPlace_cells s.board _ p.x p.y hc
    · exact hpos

/-- `hardDrop` preserves full positional well-formedness. -/
theorem hardDrop_cells_WF (s t : GameState) (hwf : WFState s) (hpos : WFCells s)
    (h : hardDrop s = some t) : WFCells t := by
  obtain ⟨hov, hpr⟩ := hwf
  cases hp : s.piece with
  | none =>
    rw [hardDrop_of_none s hp, Option.some.injEq] at h
    subst h
    exact hpos
  | some p =>
    have hr := hpr p hp
    rw [hardDrop, dropToBottom_eq_of s p _ hp (getElem?_eq_some_getD _ p.r [] hr),
      Option.some_bind] at h
    refine step_cells_WF
      { s with piece := some { p with
          y := dropY s.board ((PIECE_MAP p.shape).getD p.r []) p.x p.y (s.board.length + 5) } }
      t ⟨hov, fun q hq => ?_⟩ (fun q hq => ?_) h
    · simp only [Option.some.injEq] at hq
      subst hq
      exact hr
    · simp only [Option.some.injEq] at hq
      subst hq
      exact dropY_cells s.board _ p.x (s.board.length + 5) p.y (hpos p hp)

/-- `ensurePiece` preserves full positional well-formedness of the game
state on boards of the game's dimensions (at least 2 rows and a leading
row of at least 10 cells; the game's boards are 20 by 10): a spawned
matrix is at most 2 rows by 4 columns and sits at row 0, columns
`⌊(10-w)/2⌋ … ⌊(10-w)/2⌋+w-1 ⊆ [0, 10)`. -/
theorem ensurePiece_cells_WF (ls : LoopState) (idx : Nat) (hpos : WFCells ls.game)
    (hlen : 2 ≤ ls.game.board.length) (hwid : 10 ≤ (ls.game.board.headD []).length) :
    WFCells (ensurePiece ls idx).game := by
  cases hp : ls.game.piece with
  | some p =>
    simp only [ensurePiece, hp]
    exact hpos
  | none =>
    simp only [ensurePiece, hp]
    cases hsp : (spawnFromInventory ls.inv idx).piece with
    | none => exact hpos
    | some p =>
      intro q hq
      simp only [Option.some.injEq] at hq
      subst hq
      obtain ⟨hr0, hy0, hx0⟩ := spawnFromInventory_piece_rot ls.inv idx p hsp
      dsimp only
      rw [hr0, hy0, hx0, cellsInBoard_iff]
      intro r c hrlt hclt hocc
      have hh := rot0_height_le p.shape
      have hw := rot0_width_le p.shape
      have hdiv : (10 - (((PIECE_MAP p.shape).getD 0 []).headD []).length) / 2
          ≤ 10 - (((PIECE_MAP p.shape).getD 0 []).headD []).length :=
        Nat.div_le_self _ _
      refine ⟨⟨by omega, by omega⟩, by omega, by omega⟩

end SparkPlug
